import Mathlib

/-!
Verification of the post-processing core of the Jordan-Wigner H2 energy
estimation notebook: the coefficient expansion loop and the `calc_energy`
aggregator.  Python floats are modelled as rationals; a measurement result
(a Python dict from outcome labels to frequencies) is modelled as an
association list with first-match lookup.
-/

/-- A measurement result: a mapping from outcome labels (such as "0") to
observed frequencies.  Models the Python dict returned by the job service. -/
def MeasResult : Type := List (String × ℚ)

/-- Models Python `res.get(k, d)`: the value bound to key `k`, or the
default `d` when the key is absent. -/
def dictGet (res : MeasResult) (k : String) (d : ℚ) : ℚ :=
  (List.lookup k res).getD d

/-- Shallow embedding of the notebook function
`calc_energy(coeffs, results)`, which returns
`sum([(2. * res.get("0", 0.0) - 1.) * coeff for coeff, res in zip(coeffs, results)]) + energy_offset`.
The notebook global `energy_offset` is passed explicitly. -/
def calc_energy (coeffs : List ℚ) (results : List MeasResult)
    (energy_offset : ℚ) : ℚ :=
  (((coeffs.zip results).map
      (fun p => (2 * dictGet p.2 "0" 0 - 1) * p.1)).sum) + energy_offset

/-- The per-index summand of `calc_energy`. -/
def signedContrib (results : List MeasResult) (coeffs : List ℚ) (i : ℕ) : ℚ :=
  (2 * dictGet (results.getD i []) "0" 0 - 1) * (coeffs.getD i 0)

/-- Shallow embedding of the notebook coefficient expansion loop:
`for term_type, terms in enumerate(fermion_terms): for (qubits, coeff) in terms: coeffs += ExpandedCoefficients_(coeff=coeff, termType=term_type)`.
The external library function `ExpandedCoefficients_` is a parameter `EC`
taking the coefficient and the term type. -/
def expandCoeffs (EC : ℚ → ℕ → List ℚ) (fermion_terms : List (List (ℕ × ℚ))) :
    List ℚ :=
  (fermion_terms.enum.map
      (fun tt => (tt.2.map (fun qc => EC qc.2 tt.1)).flatten)).flatten

/- Helper lemmas shared between the claim theorems. -/

lemma calc_energy_eq_range_sum (coeffs : List ℚ) (results : List MeasResult)
    (o : ℚ) :
    calc_energy coeffs results o =
      (∑ i ∈ Finset.range (min coeffs.length results.length),
        signedContrib results coeffs i) + o := by
  unfold calc_energy
  congr 1
  induction coeffs generalizing results with
  | nil => simp
  | cons c cs ih =>
    cases results with
    | nil => simp
    | cons r rs =>
      rw [List.zip_cons_cons, List.map_cons, List.sum_cons, ih rs]
      rw [List.length_cons, List.length_cons, Nat.succ_min_succ,
        Finset.sum_range_succ']
      simp [signedContrib]
      ring

lemma expandCoeffs_eq_of_map_snd_eq (EC : ℚ → ℕ → List ℚ)
    (ts1 ts2 : List (List (ℕ × ℚ)))
    (h : ts1.map (List.map Prod.snd) = ts2.map (List.map Prod.snd)) :
    expandCoeffs EC ts1 = expandCoeffs EC ts2 := by
  have key : ∀ ts : List (List (ℕ × ℚ)),
      expandCoeffs EC ts =
        ((ts.map (List.map Prod.snd)).enum.map
          (fun tc => (tc.2.map (fun c => EC c tc.1)).flatten)).flatten := by
    intro ts
    unfold expandCoeffs
    rw [List.enum_map, List.map_map]
    congr 1
    apply List.map_congr_left
    intro a _
    simp [Prod.map, List.map_map, Function.comp_def]
  rw [key ts1, key ts2, h]

/-- C1: for every coefficient sequence of length N, every index-aligned
sequence of N measurement results and every offset, `calc_energy` returns
exactly the sum over i in 0..N-1 of (2 * result_i("0", default 0) - 1) *
coeff_i, with the offset added once at the end. -/
theorem calc_energy_aligned_sum (coeffs : List ℚ) (results : List MeasResult)
    (o : ℚ) (h : coeffs.length = results.length) :
    calc_energy coeffs results o =
      (∑ i ∈ Finset.range coeffs.length, signedContrib results coeffs i) + o := by
  rw [calc_energy_eq_range_sum, h, min_self]

/-- C1 witness: on coefficients [0.5, -0.3], results [res("0" to 1), res("0" to 0)]
and offset -1.1, the aligned-sum formula holds and the value is -0.3. -/
theorem calc_energy_aligned_sum_example :
    (calc_energy [1/2, -3/10] [[("0", 1)], [("0", 0)]] (-11/10) =
      (∑ i ∈ Finset.range ([(1 : ℚ)/2, -3/10].length),
        signedContrib [[("0", 1)], [("0", 0)]] [1/2, -3/10] i) + (-11/10)) ∧
    calc_energy [1/2, -3/10] [[("0", 1)], [("0", 0)]] (-11/10) = -3/10 :=
  ⟨calc_energy_aligned_sum [1/2, -3/10] [[("0", 1)], [("0", 0)]] (-11/10) rfl,
   by norm_num [calc_energy, dictGet, List.lookup]⟩

/-- C2 counterexample: with 3 coefficients and 2 results, `calc_energy` does
not fail: it produces the energy value 3 (sum over the first two aligned
pairs, plus offset 0), so no LengthMismatch error is raised. -/
theorem calc_energy_mismatch_returns_value :
    calc_energy [1, 2, 3] [[("0", 1)], [("0", 1)]] 0 = 3 := by
  norm_num [calc_energy, dictGet, List.lookup]

/-- C2 amended: when the coefficient and result sequences differ in length,
`calc_energy` raises no error: it returns the sum over the first
min(len coeffs, len results) aligned pairs plus the offset. -/
theorem calc_energy_mismatch_truncates (coeffs : List ℚ)
    (results : List MeasResult) (o : ℚ)
    (_h : coeffs.length ≠ results.length) :
    calc_energy coeffs results o =
      (∑ i ∈ Finset.range (min coeffs.length results.length),
        signedContrib results coeffs i) + o :=
  calc_energy_eq_range_sum coeffs results o

/-- C2 amended witness: 3 coefficients against 2 results, offset 0. -/
theorem calc_energy_mismatch_truncates_example :
    calc_energy [1, 2, 3] [[("0", 1/2)], [("0", 1/2)]] 0 =
      (∑ i ∈ Finset.range (min ([(1 : ℚ), 2, 3]).length
          ([[("0", (1 : ℚ)/2)], [("0", 1/2)]]).length),
        signedContrib [[("0", 1/2)], [("0", 1/2)]] [1, 2, 3] i) + 0 :=
  calc_energy_mismatch_truncates [1, 2, 3] [[("0", 1/2)], [("0", 1/2)]] 0
    (by decide)

/-- C3: for all inputs, `calc_energy` sums over exactly the first
min(len coeffs, len results) index-aligned pairs and adds the offset,
silently ignoring surplus entries of the longer sequence. -/
theorem calc_energy_zip_truncation (coeffs : List ℚ)
    (results : List MeasResult) (o : ℚ) :
    calc_energy coeffs results o =
      (∑ i ∈ Finset.range (min coeffs.length results.length),
        signedContrib results coeffs i) + o :=
  calc_energy_eq_range_sum coeffs results o

/-- C4 counterexample: a result reporting frequency 1.4 for "0" (outside
[0,1]) raises no InvalidResult error: `calc_energy` produces the value 1.8
(namely (2 * 1.4 - 1) * 1 with offset 0). -/
theorem calc_energy_invalid_freq_returns_value :
    calc_energy [1] [[("0", 7/5)]] 0 = 9/5 := by
  norm_num [calc_energy, dictGet, List.lookup]

/-- C4 amended: `calc_energy` performs no range validation: even when some
result reports a frequency for "0" outside [0,1], it returns the usual
truncated sum plus the offset, the out-of-range frequency f entering the sum
as 2 * f - 1. -/
theorem calc_energy_no_range_check (coeffs : List ℚ)
    (results : List MeasResult) (o : ℚ)
    (_h : ∃ r ∈ results, dictGet r "0" 0 < 0 ∨ 1 < dictGet r "0" 0) :
    calc_energy coeffs results o =
      (∑ i ∈ Finset.range (min coeffs.length results.length),
        signedContrib results coeffs i) + o :=
  calc_energy_eq_range_sum coeffs results o

/-- C4 amended witness: one coefficient, one result with frequency 1.4. -/
theorem calc_energy_no_range_check_example :
    calc_energy [1] [[("0", 7/5)]] 0 =
      (∑ i ∈ Finset.range (min ([(1 : ℚ)]).length ([[("0", (7 : ℚ)/5)]]).length),
        signedContrib [[("0", 7/5)]] [1] i) + 0 :=
  calc_energy_no_range_check [1] [[("0", 7/5)]] 0
    ⟨[("0", 7/5)], by simp, Or.inr (by norm_num [dictGet, List.lookup])⟩


/-- Modelled from the spec: the number of measurement operators per term type
in the two-qubit H2 Jordan-Wigner encoding, supplied by the encoder as
configuration (one operator for the one-body term types 0 and 1, two for term
type 2, eight for the off-diagonal two-body term type 3). -/
def h2TermTypeArity : ℕ → ℕ
  | 2 => 2
  | 3 => 8
  | _ => 1

/-- Modelled from the spec: the library function `ExpandedCoefficients_`
(imported from Microsoft.Quantum.Chemistry.Hamiltonian, whose Q# source is
not among the sampled files) expands one coefficient of a term of the given
term type into the per-measurement-operator coefficients of that term type;
per the spec the replication rule is encoder configuration, here replicating
the coefficient over the `h2TermTypeArity` operators of its term type. -/
def ExpandedCoefficientsH2 (coeff : ℚ) (termType : ℕ) : List ℚ :=
  List.replicate (h2TermTypeArity termType) coeff

/-- Modelled from the spec: the per-term-type fermion terms of the two-qubit
H2 encoding, as produced by `load_and_encode` on `hydrogen_0.2.yaml` (data
not among the sampled files): four one-body terms of term type 0, six of
term type 1, none of term type 2 and one off-diagonal two-body term of term
type 3, so that the per-type arities sum to the fixed total operator count of
18; the operator ids `q` and the coefficients `c` are supplied by the data
file and left arbitrary here. -/
def h2FermionTerms (q : ℕ → ℕ → ℕ) (c : ℕ → ℕ → ℚ) : List (List (ℕ × ℚ)) :=
  [(List.range 4).map (fun j => (q 0 j, c 0 j)),
   (List.range 6).map (fun j => (q 1 j, c 1 j)),
   [],
   [(q 3 0, c 3 0)]]

/-- C5: for every choice of operator ids and coefficients in the H2 fermion
term data, the expanded coefficient sequence has length exactly the fixed
total operator count of 18, and in particular at most 18 of its entries are
nonzero. -/
theorem expandCoeffs_h2_length (q : ℕ → ℕ → ℕ) (c : ℕ → ℕ → ℚ) :
    (expandCoeffs ExpandedCoefficientsH2 (h2FermionTerms q c)).length = 18 ∧
    ((expandCoeffs ExpandedCoefficientsH2 (h2FermionTerms q c)).filter
      (fun x => x ≠ 0)).length ≤ 18 := by
  have hlen :
      (expandCoeffs ExpandedCoefficientsH2 (h2FermionTerms q c)).length = 18 := by
    simp [expandCoeffs, h2FermionTerms, ExpandedCoefficientsH2, h2TermTypeArity,
      List.enum, List.map_map, Function.comp_def]
  refine ⟨hlen, ?_⟩
  calc ((expandCoeffs ExpandedCoefficientsH2 (h2FermionTerms q c)).filter
          (fun x => x ≠ 0)).length
      ≤ (expandCoeffs ExpandedCoefficientsH2 (h2FermionTerms q c)).length :=
        List.length_filter_le _ _
    _ = 18 := hlen

/-- C6 counterexample: a term whose Measurement Operator ID is 99, far
outside the valid range 0..17 for the declared total operator count of 18,
raises no InvalidEncoding error: the expansion succeeds, produces the value
[5], and produces the same output as the same term with the in-range ID 0. -/
theorem expandCoeffs_invalid_id_returns_value :
    expandCoeffs ExpandedCoefficientsH2 [[(99, 5)]] = [5] ∧
    expandCoeffs ExpandedCoefficientsH2 [[(99, 5)]] =
      expandCoeffs ExpandedCoefficientsH2 [[(0, 5)]] := by
  constructor <;>
    simp [expandCoeffs, ExpandedCoefficientsH2, h2TermTypeArity, List.enum]

/-- C6 amended: the expansion loop performs no validation of Measurement
Operator IDs: on an input containing an ID outside the valid range 0..17 it
does not fail, and it returns exactly what it returns when every ID is
replaced by the in-range ID 0. -/
theorem expandCoeffs_no_id_validation (EC : ℚ → ℕ → List ℚ)
    (ts : List (List (ℕ × ℚ)))
    (_h : ∃ t ∈ ts, ∃ p ∈ t, 18 ≤ p.1) :
    expandCoeffs EC ts =
      expandCoeffs EC (ts.map (List.map (fun p => (0, p.2)))) := by
  apply expandCoeffs_eq_of_map_snd_eq
  simp [List.map_map, Function.comp_def]

/-- C6 amended witness: one term with the out-of-range operator ID 99. -/
theorem expandCoeffs_no_id_validation_example :
    expandCoeffs ExpandedCoefficientsH2 [[(99, 5)]] =
      expandCoeffs ExpandedCoefficientsH2
        ([[((99 : ℕ), (5 : ℚ))]].map (List.map (fun p => (0, p.2)))) :=
  expandCoeffs_no_id_validation ExpandedCoefficientsH2 [[(99, 5)]]
    ⟨[(99, 5)], by simp, (99, 5), by simp, by norm_num⟩

/-- C7: the coefficient expansion ignores the `qubits` component of each
pair: two fermion-term inputs with identical coefficient projections (that
is, differing only in the operator-ID components) expand, for every external
expansion function EC, to identical flattened coefficient sequences. -/
theorem expandCoeffs_ignores_ids (EC : ℚ → ℕ → List ℚ)
    (ts1 ts2 : List (List (ℕ × ℚ)))
    (h : ts1.map (List.map Prod.snd) = ts2.map (List.map Prod.snd)) :
    expandCoeffs EC ts1 = expandCoeffs EC ts2 :=
  expandCoeffs_eq_of_map_snd_eq EC ts1 ts2 h

/-- C7 witness: the inputs [[(0, 3)]] and [[(7, 3)]] differ only in the
operator-ID component and expand identically. -/
theorem expandCoeffs_ignores_ids_example :
    expandCoeffs ExpandedCoefficientsH2 [[(0, 3)]] =
      expandCoeffs ExpandedCoefficientsH2 [[(7, 3)]] :=
  expandCoeffs_ignores_ids ExpandedCoefficientsH2 [[(0, 3)]] [[(7, 3)]] rfl

/-- C8: in `calc_energy`, a result of mapping "0" to 1 contributes plus the
coefficient, a result mapping "0" to 0 contributes minus the coefficient,
and a result with no "0" label at all defaults to frequency 0 and likewise
contributes minus the coefficient. -/
theorem calc_energy_boundary (c o : ℚ) (r : MeasResult)
    (h : List.lookup "0" r = none) :
    calc_energy [c] [[("0", 1)]] o = c + o ∧
    calc_energy [c] [[("0", 0)]] o = -c + o ∧
    calc_energy [c] [r] o = -c + o := by
  refine ⟨?_, ?_, ?_⟩
  all_goals simp [calc_energy, dictGet, List.lookup, h]
  all_goals ring

/-- C8 witness: coefficient 1, offset 0, and the "0"-free result
mapping "1" to 1. -/
theorem calc_energy_boundary_example :
    calc_energy [1] [[("0", 1)]] 0 = 1 + 0 ∧
    calc_energy [1] [[("0", 0)]] 0 = -1 + 0 ∧
    calc_energy [1] [[("1", 1)]] 0 = -1 + 0 :=
  calc_energy_boundary 1 0 [("1", 1)] (by simp [List.lookup])

/-- C9: when every measurement result reports frequency 1/2 for "0", every
signed value is 0, so `calc_energy` returns exactly the energy offset, for
every coefficient sequence. -/
theorem calc_energy_half_gives_offset (coeffs : List ℚ)
    (results : List MeasResult) (o : ℚ)
    (h : ∀ r ∈ results, dictGet r "0" 0 = 1/2) :
    calc_energy coeffs results o = o := by
  unfold calc_energy
  have hz : ∀ x ∈ (coeffs.zip results).map
      (fun p => (2 * dictGet p.2 "0" 0 - 1) * p.1), x = 0 := by
    intro x hx
    rcases List.mem_map.mp hx with ⟨p, hp, rfl⟩
    rw [h p.2 (List.of_mem_zip hp).2]
    ring
  rw [List.sum_eq_zero hz, zero_add]

/-- C9 witness: coefficients [2, -7], both results reporting 1/2, offset 5. -/
theorem calc_energy_half_gives_offset_example :
    calc_energy [2, -7] [[("0", 1/2)], [("0", 1/2)]] 5 = 5 :=
  calc_energy_half_gives_offset [2, -7] [[("0", 1/2)], [("0", 1/2)]] 5
    (by intro r hr
        simp only [List.mem_cons, List.not_mem_nil, or_false] at hr
        rcases hr with rfl | rfl <;> norm_num [dictGet, List.lookup])

/-- C10: `calc_energy` is linear in the coefficients: scaling every
coefficient by k scales the non-offset part of the output (the output minus
the offset) by k, for every result sequence and offset. -/
theorem calc_energy_linear_in_coeffs (k : ℚ) (coeffs : List ℚ)
    (results : List MeasResult) (o : ℚ) :
    calc_energy (coeffs.map (fun c => k * c)) results o - o =
      k * (calc_energy coeffs results o - o) := by
  unfold calc_energy
  simp only [add_sub_cancel_right]
  induction coeffs generalizing results with
  | nil => simp
  | cons c cs ih =>
    cases results with
    | nil => simp
    | cons r rs =>
      rw [List.map_cons, List.zip_cons_cons, List.zip_cons_cons,
        List.map_cons, List.map_cons, List.sum_cons, List.sum_cons, ih rs]
      ring
